import Mathlib

/-!
Verification of the sampling-control and detection-selection algorithms of the
LeR gravitational-wave lensing rate pipeline, shallowly embedded over `ℚ`.

Sources embedded:
* `src/ler/ler.py` — batched accumulation (`unlensed_cbc_statistics`,
  `lensed_cbc_statistics`), detection selection and rate estimation
  (`unlensed_rate`, `lensed_rate`).
* `src/ler/lens_galaxy_population/lens_galaxy_parameter_distribution.py` —
  quota-filling rejection samplers (`strongly_lensed_source_redshifts`,
  `sample_all_routine1`, `rjs_with_einstein_radius`, `rjs_with_cross_section`).

Numpy floating-point arrays are modelled as `List ℚ`; randomness is
externalized: every `np.random.uniform` draw becomes an explicit input list,
and theorems carry the support of the draw as a hypothesis.  External
collaborators (the optical-depth function, the standard normal CDF, the
`phi_cut_SIE` geometric factor, `phi_q2_ellipticity`) are function parameters.
-/

namespace LeR

/-- `np.mean` on a list of rationals (empty list gives `0/0 = 0` in `ℚ`). -/
def meanQ (xs : List ℚ) : ℚ := xs.sum / (xs.length : ℚ)

/-- Insert into a descending-sorted list of rationals. -/
def insertDesc (x : ℚ) : List ℚ → List ℚ
  | [] => [x]
  | y :: ys => if y < x then x :: y :: ys else y :: insertDesc x ys

/-- Sort a list of rationals in descending order; embeds the per-row
`-np.sort(-snr, axis=1)` of `ler.py`. -/
def sortDesc (xs : List ℚ) : List ℚ := xs.foldr insertDesc []

/-- Insert into a list of pairs sorted by descending first component. -/
def insertPairDesc (x : ℚ × ℕ) : List (ℚ × ℕ) → List (ℚ × ℕ)
  | [] => [x]
  | y :: ys => if y.1 < x.1 then x :: y :: ys else y :: insertPairDesc x ys

/-- Sort pairs by descending first component. -/
def sortPairsDesc (l : List (ℚ × ℕ)) : List (ℚ × ℕ) := l.foldr insertPairDesc []

/-- `(-snr_threshold).argsort()` of `ler.py` line 469: the indices of the
threshold array in descending order of threshold.  (Ties are resolved by this
particular sort; the detection loop's outcome is insensitive to tie order
because equal thresholds contribute identical comparisons.) -/
def argsortDesc (ts : List ℚ) : List ℕ :=
  (sortPairsDesc (ts.enum.map (fun p => (p.2, p.1)))).map (fun p => p.2)

/-- The sequence of thresholds consumed, one per column `num2 = 0,1,2,…`, by
the nested loop of `ler.py` lines 477-487: for each `i` in `arg_th` the inner
loop runs `num_img[i]` times, comparing column `num2` against
`snr_threshold[i]` and advancing `num2`. -/
def consumedThresholds (thr : List ℚ) (nimg : List ℕ) : List ℚ :=
  (argsortDesc thr).flatMap (fun i => List.replicate (nimg.getD i 0) (thr.getD i 0))

/-- The running conjunction built by `snr_hit = snr_hit & (sorted_snr[:, num2]
 > snr_threshold[i])` (`ler.py` line 481), for one row of the sorted SNR
matrix: `num2` is the column counter, the list argument the per-column
thresholds it walks. -/
def snrHitRow (row : List ℚ) : List ℚ → ℕ → Bool → Bool
  | [], _, acc => acc
  | t :: ts, num2, acc =>
      snrHitRow row ts (num2 + 1) (acc && decide (t < row.getD num2 0))

/-- The running product built by `pdet_combined = pdet_combined * pdet` with
`pdet = 1 - norm.cdf(snr_threshold[i] - sorted_snr[:, num2])` (`ler.py` lines
483-486), for one row.  `Phi` is the standard normal CDF collaborator
(`scipy.stats.norm.cdf`); `np.nan_to_num` is the identity on `ℚ`. -/
def pdetRowAux (Phi : ℚ → ℚ) (row : List ℚ) : List ℚ → ℕ → ℚ → ℚ
  | [], _, acc => acc
  | t :: ts, num2, acc =>
      pdetRowAux Phi row ts (num2 + 1) (acc * (1 - Phi (t - row.getD num2 0)))

/-- Hit mask of `ler.py` lines 466-487: per-system boolean detection flag. -/
def lensedSnrHit (thr : List ℚ) (nimg : List ℕ) (snr : List (List ℚ)) :
    List Bool :=
  snr.map (fun row => snrHitRow (sortDesc row) (consumedThresholds thr nimg) 0 true)

/-- `pdet_combined` of `ler.py` lines 476-487: per-system joint detection
probability. -/
def pdetCombined (Phi : ℚ → ℚ) (thr : List ℚ) (nimg : List ℕ)
    (snr : List (List ℚ)) : List ℚ :=
  snr.map (fun row => pdetRowAux Phi (sortDesc row) (consumedThresholds thr nimg) 0 1)

/-- Spec-side definition (from the spec's words, §4.6): sort the SelectionSpec
by descending threshold and expand each requirement `(t, c)` into `c` copies of
`t`; the `k`-th entry is the threshold against which the `k`-th
descending-sorted image signal is consumed. -/
def selectionExpand (sel : List (ℚ × ℕ)) : List ℚ :=
  (sortPairsDesc sel).flatMap (fun p => List.replicate p.2 p.1)

/-- Spec-side definition (from the spec's words, §4.6): a system's hit mask is
the AND, over the consumed columns, of "sorted signal exceeds the threshold of
the requirement that consumed it". -/
def hitMaskSpec (signals : List (List ℚ)) (sel : List (ℚ × ℕ)) : List Bool :=
  signals.map (fun row =>
    ((selectionExpand sel).enum).all
      (fun p => decide (p.2 < (sortDesc row).getD p.1 0)))

/-- Spec-side definition (from the spec's words, §4.6): joint detection
probability is the product over the consumed columns of `Φ(signal − threshold)`
with the threshold of the consuming requirement. -/
def jointPdetSpec (Phi : ℚ → ℚ) (signals : List (List ℚ))
    (sel : List (ℚ × ℕ)) : List ℚ :=
  signals.map (fun row =>
    (((selectionExpand sel).enum).map
      (fun p => Phi ((sortDesc row).getD p.1 0 - p.2))).prod)

/-! ## Rate estimator (`ler.py` lines 337-345 and 510-516) -/

/-- Numeric value of a boolean detection flag, as numpy arithmetic on a
boolean array treats it. -/
def boolToQ (b : Bool) : ℚ := if b then 1 else 0

/-- `total_rate_step = c0 * np.mean(idx_detectable)` (`ler.py` line 338). -/
def unlensedRateStep (c0 : ℚ) (idx_detectable : List Bool) : ℚ :=
  c0 * meanQ (idx_detectable.map boolToQ)

/-- `total_rate_pdet = c0 * np.mean(pdet)` (`ler.py` line 342). -/
def unlensedRatePdet (c0 : ℚ) (pdet : List ℚ) : ℚ := c0 * meanQ pdet

/-- `total_rate_step = c0 * np.mean(snr_hit*weights)` (`ler.py` line 511). -/
def lensedRateStep (c0 : ℚ) (snr_hit : List Bool) (weights : List ℚ) : ℚ :=
  c0 * meanQ (List.zipWith (fun h w => boolToQ h * w) snr_hit weights)

/-- `total_rate_pdet = c0 * np.mean(pdet_combined*weights)` (`ler.py` line 515). -/
def lensedRatePdet (c0 : ℚ) (pdet_combined : List ℚ) (weights : List ℚ) : ℚ :=
  c0 * meanQ (List.zipWith (fun p w => p * w) pdet_combined weights)

/-- Spec-side definition (from the spec's words, §4.7):
`rate = C0 · mean(indicator_or_probability · weight)`. -/
def rateFormula (c0 : ℚ) (arr weight : List ℚ) : ℚ :=
  c0 * meanQ (List.zipWith (fun a w => a * w) arr weight)

/-! ## RecordBatch: python dict of numpy arrays, as an association list -/

abbrev Batch := List (String × List ℚ)

/-- Dictionary lookup; a missing key gives the empty array. -/
def Batch.get (b : Batch) (k : String) : List ℚ :=
  ((b.find? (fun kv => kv.1 == k)).map (fun kv => kv.2)).getD []

/-- Python dict assignment `b[k] = v`: replace the entry if the key exists,
otherwise append it. -/
def Batch.set (b : Batch) (k : String) (v : List ℚ) : Batch :=
  if (b.find? (fun kv => kv.1 == k)).isSome then
    b.map (fun kv => if kv.1 == k then (kv.1, v) else kv)
  else b ++ [(k, v)]

/-- numpy boolean-mask selection `val[mask]` on a 1-D array. -/
def maskFilter (mask : List Bool) (xs : List ℚ) : List ℚ :=
  ((mask.zip xs).filter (fun p => p.1)).map (fun p => p.2)

/-- `np.max` on a (nonempty) array; the empty case raises `ValueError` in
numpy and is modelled as `none` by the callers below. -/
def qmax : List ℚ → ℚ
  | [] => 0
  | x :: xs => xs.foldl max x

/-! ## Geometric rejection rules
(`lens_galaxy_parameter_distribution.py` lines 748-797) -/

/-- The acceptance mask `u < theta_E**2` of `rjs_with_einstein_radius`
(line 767), where `u` is the `np.random.uniform(0, theta_E_max**2, size=size)`
draw, externalized as an input. -/
def einsteinMask (u thetaE : List ℚ) : List Bool :=
  (u.zip thetaE).map (fun p => decide (p.1 < p.2 ^ 2))

/-- The acceptance mask `u < cross_section` of `rjs_with_cross_section`
(line 794) with `cross_section = theta_E**2 * phi_cut_SIE(q)`; `phiCut` is the
external `phi_cut_SIE` collaborator. -/
def crossSectionMask (phiCut : ℚ → ℚ) (u thetaE q : List ℚ) : List Bool :=
  (u.zip (List.zipWith (fun t qi => t ^ 2 * phiCut qi) thetaE q)).map
    (fun p => decide (p.1 < p.2))

/-- `rjs_with_einstein_radius` (lines 748-770): `np.max` of an empty
`theta_E` raises `ValueError` (modelled `none`); otherwise every field of the
dict is filtered by the same acceptance mask. -/
def rjs_with_einstein_radius (u : List ℚ) (param_dict : Batch) : Option Batch :=
  let thetaE := param_dict.get "theta_E"
  if thetaE.isEmpty then none
  else some (param_dict.map (fun kv => (kv.1, maskFilter (einsteinMask u thetaE) kv.2)))

/-- `rjs_with_cross_section` (lines 772-797). -/
def rjs_with_cross_section (phiCut : ℚ → ℚ) (u : List ℚ) (param_dict : Batch) :
    Option Batch :=
  let thetaE := param_dict.get "theta_E"
  let q := param_dict.get "q"
  let crossSection := List.zipWith (fun t qi => t ^ 2 * phiCut qi) thetaE q
  if crossSection.isEmpty then none
  else some (param_dict.map
    (fun kv => (kv.1, maskFilter (crossSectionMask phiCut u thetaE q) kv.2)))

/-! ## Strongly-lensed source redshifts
(`lens_galaxy_parameter_distribution.py` lines 552-593) -/

/-- One round of candidate draws of `zs_function`: the `size` redshifts from
`self.sample_zs(size)` and the `np.random.uniform(0, tau_max, size=len(zs))`
draws. -/
abbrev SlRound := List ℚ × List ℚ

/-- The recursive `zs_function` (lines 570-589); `tau` is the external
optical-depth collaborator, the round list externalizes the random draws, and
an exhausted round list models the unbounded recursion not terminating. -/
def zs_function (tau : ℚ → ℚ) (size : ℕ) : List SlRound → List ℚ → Option (List ℚ)
  | [], _ => none
  | (zs, u) :: rest, zs_sl =>
      let accepted := ((zs.zip u).filter (fun p => decide (p.2 < tau p.1))).map
        (fun p => p.1)
      let zs_sl2 := zs_sl ++ accepted
      if size ≤ zs_sl2.length then some (zs_sl2.take size)
      else zs_function tau size rest zs_sl2

/-- `strongly_lensed_source_redshifts` (lines 552-593): run `zs_function`
from the empty accumulator. -/
def strongly_lensed_source_redshifts (tau : ℚ → ℚ) (size : ℕ)
    (rounds : List SlRound) : Option (List ℚ) :=
  zs_function tau size rounds []

/-- Spec-side definition (from the spec's words, §4.3): the insertion-ordered
stream of accepted redshifts across rounds — each round contributes, in
candidate order, the redshifts whose uniform draw fell strictly below their
optical depth. -/
def acceptedStream (tau : ℚ → ℚ) (rounds : List SlRound) : List ℚ :=
  rounds.flatMap (fun r =>
    ((r.1.zip r.2).filter (fun p => decide (p.2 < tau p.1))).map (fun p => p.1))

/-! ## `sample_all_routine1`
(`lens_galaxy_parameter_distribution.py` lines 395-518) -/

/-- The per-invocation random draws of `sample_all_routine1`, externalized:
`zsCand` is the `strongly_lensed_source_redshifts(size)` output (line 438),
`zl`, `sigma`, `q` the collaborator sampler outputs (lines 441-450), `thetaE`
the `compute_einstein_radii` output (line 453, deterministic given the
external angular-diameter distances), `uRjs` the uniform draw inside the
rejection step, and `phi`, `gamma1`, `gamma2`, `gammaSpec` the post-trim
draws of lines 486-503. -/
structure Routine1Draws where
  zsCand : List ℚ
  zl : List ℚ
  sigma : List ℚ
  q : List ℚ
  thetaE : List ℚ
  uRjs : List ℚ
  phi : List ℚ
  gamma1 : List ℚ
  gamma2 : List ℚ
  gammaSpec : List ℚ
deriving DecidableEq

/-- The candidate dict of lines 456-462. -/
def lensBatchOf (d : Routine1Draws) : Batch :=
  [("zl", d.zl), ("zs", d.zsCand), ("sigma", d.sigma), ("q", d.q),
   ("theta_E", d.thetaE)]

/-- The accepted sub-batch produced by the rejection step on a candidate
draw (when `theta_E` is nonempty). -/
def rjsAcceptedBatch (d : Routine1Draws) : Batch :=
  (lensBatchOf d).map
    (fun kv => (kv.1, maskFilter (einsteinMask d.uRjs d.thetaE) kv.2))

/-- Modelled from the spec: `add_dictionaries_together` from `ler.utils` is
not under `src/`; per spec §4.1, `concat(a, b)` requires matching field sets
and concatenates each field with `a`'s rows first.  A key missing from `b`
(the initial empty `lens_parameters_input`) contributes no rows. -/
def add_dictionaries_together (a b : Batch) : Batch :=
  a.map (fun kv => (kv.1, kv.2 ++ b.get kv.1))

/-- Modelled from the spec: `trim_dictionary` from `ler.utils` is not under
`src/`; per spec §4.1, `trim(batch, n)` keeps the first `n` rows of every
field. -/
def trim_dictionary (b : Batch) (n : ℕ) : Batch :=
  b.map (fun kv => (kv.1, kv.2.take n))

/-- Result of `sample_all_routine1`: a normal return carries the final record
and the redshift array `zs` passed to the source-parameter sampler in
`param = dict(zs=np.array(zs))` (line 506); `valueError` is the `np.max`
failure inside the rejection step on an empty candidate batch; `outOfRounds`
models the unbounded recursion exceeding the provided draws. -/
inductive Routine1Result where
  | ok (record : Batch) (zsToSourceSampler : List ℚ)
  | valueError
  | outOfRounds
deriving DecidableEq

def Routine1Result.zsPassed? : Routine1Result → Option (List ℚ)
  | .ok _ z => some z
  | _ => none

def Routine1Result.recordField? (k : String) : Routine1Result → Option (List ℚ)
  | .ok b _ => some (b.get k)
  | _ => none

/-- The record assembled in the final (quota-met) branch of
`sample_all_routine1` (lines 482-503): trim the merged dict to `size`, then
add the axis-rotation angle, the ellipticities computed by the external
`phi_q2_ellipticity` from `(phi, q)`, the shears, and the spectral index. -/
def routine1Record (phiQ2e : ℚ → ℚ → ℚ × ℚ) (size : ℕ) (input : Batch)
    (d : Routine1Draws) (accepted : Batch) : Batch :=
  let t := trim_dictionary (add_dictionaries_together accepted input) size
  let e12 := (d.phi.zip (Batch.get t "q")).map (fun p => phiQ2e p.1 p.2)
  (((((t.set "phi" d.phi).set "e1" (e12.map (fun p => p.1))).set "e2"
    (e12.map (fun p => p.2))).set "gamma1" d.gamma1).set "gamma2"
    d.gamma2).set "gamma" d.gammaSpec

/-- `sample_all_routine1` (lines 395-518).  `phiQ2e` is the external
`phi_q2_ellipticity` collaborator.  The external gravitational-wave
source-parameter sampler of lines 505-509 is invoked with `size` and the
redshift array `zs` of the *current* invocation; the embedding records that
array in the result rather than modelling the sampler's output fields, and
the final `del mass_1, mass_2` only touches those unmodelled fields. -/
def sample_all_routine1 (phiQ2e : ℚ → ℚ → ℚ × ℚ) (size : ℕ) :
    Batch → List Routine1Draws → Routine1Result
  | _, [] => .outOfRounds
  | input, d :: rest =>
    match rjs_with_einstein_radius d.uRjs (lensBatchOf d) with
    | none => .valueError
    | some accepted =>
      let merged := add_dictionaries_together accepted input
      if (Batch.get merged "zl").length < size then
        sample_all_routine1 phiQ2e size merged rest
      else
        .ok (routine1Record phiQ2e size input d accepted) d.zsCand

/-! ## Batched accumulation (`ler.py` lines 244-282 and 375-424) -/

/-- `num_batches - 1` of `ler.py` lines 244-251: ceil division computed by
the `%`/`//` branch, then decremented (python value may be `-1` when
`nsamples = 0`). -/
def numBatchesMinus1 (nsamples batch_size : ℕ) : ℤ :=
  (if nsamples % batch_size == 0 then ((nsamples : ℤ) / (batch_size : ℤ))
   else ((nsamples : ℤ) / (batch_size : ℤ)) + 1) - 1

/-- `frac_batches` of `ler.py` lines 252-255. -/
def fracBatches (nsamples batch_size : ℕ) : ℕ :=
  if batch_size < nsamples then
    nsamples - (numBatchesMinus1 nsamples batch_size).toNat * batch_size
  else nsamples

/-- The sizes of the successive sampling rounds: the leading fractional round
(lines 256-266 / 388-402) followed by the `num_batches - 1` full rounds of the
`for` loop (lines 270-281 / 406-423). -/
def roundSizes (nsamples batch_size : ℕ) : List ℕ :=
  fracBatches nsamples batch_size ::
    List.replicate (numBatchesMinus1 nsamples batch_size).toNat batch_size

/-- The unlensed statistics loop (`unlensed_cbc_statistics`, lines 244-282):
per round, the external `sample_gw_parameters`/`snr` collaborators produce a
batch of the requested size (`samp i n`, contract `length = n`), and rounds
are concatenated with `np.append`.  One representative field is modelled; the
code appends every field identically. -/
def unlensed_cbc_statistics (samp : ℕ → ℕ → List ℚ) (nsamples batch_size : ℕ) :
    List ℚ :=
  (roundSizes nsamples batch_size).enum.flatMap (fun p => samp p.1 p.2)

/-- The lensed statistics loop (`lensed_cbc_statistics`, lines 375-424): per
round, `sample_lens_parameters` draws the requested size, then the enrichment
(`get_image_properties`, then `get_lensed_snrs`) is applied before
concatenation.  Modelled from the spec: `get_image_properties` is not under
`src/`; per spec §6 it may drop rows (output size ≤ input size), and
`get_lensed_snrs` adds fields without changing the row count; `imgSolve i`
is that per-round enrichment. -/
def lensed_cbc_statistics (samp : ℕ → ℕ → List ℚ)
    (imgSolve : ℕ → List ℚ → List ℚ) (nsamples batch_size : ℕ) : List ℚ :=
  (roundSizes nsamples batch_size).enum.flatMap (fun p => imgSolve p.1 (samp p.1 p.2))

/-! ## Rate methods and the stored populations (`ler.py` lines 295-345, 437-518) -/

/-- The lensed population store: the 1-D fields plus the 2-D per-system
per-image `opt_snr_net` array. -/
structure LensedStore where
  fields1 : Batch
  opt_snr_net : List (List ℚ)
deriving DecidableEq

/-- Row filtering `value[snr_hit]` applied to every field of the lensed
store (`ler.py` lines 492-497; `np.nan_to_num` of the `none_as_nan=False`
branch is the identity on `ℚ`). -/
def LensedStore.filterRows (st : LensedStore) (mask : List Bool) : LensedStore :=
  { fields1 := st.fields1.map (fun kv => (kv.1, maskFilter mask kv.2)),
    opt_snr_net := ((mask.zip st.opt_snr_net).filter (fun p => p.1)).map
      (fun p => p.2) }

/-- The instance attributes of `LeR` holding the sampled populations. -/
structure LerState where
  gw_param : Option Batch
  gw_param_detectable : Option Batch
  lensed_param : Option LensedStore
  lensed_param_detectable : Option LensedStore
deriving DecidableEq

/-- The detectable subset computed by `unlensed_rate` (lines 316-326): the
`pdet_net` field is added on the copy, then every field is filtered by
`snr > snr_threshold`. -/
def unlensedDetectable (Phi : ℚ → ℚ) (snr_threshold : ℚ) (gp : Batch) : Batch :=
  let snr := gp.get "opt_snr_net"
  let idx_detectable := snr.map (fun x => decide (snr_threshold < x))
  (gp.set "pdet_net" (snr.map (fun x => 1 - Phi (snr_threshold - x)))).map
    (fun kv => (kv.1, maskFilter idx_detectable kv.2))

/-- `unlensed_rate` (lines 295-345) on an already-sampled population
(`self.gw_param` set): `none` models the not-yet-sampled branch that first
runs the whole statistics pipeline.  `dict.copy()` plus numpy fancy indexing
never mutate the stored arrays, so the state update only touches
`gw_param_detectable`. -/
def unlensed_rate (Phi : ℚ → ℚ) (c0 snr_threshold : ℚ) (s : LerState) :
    Option (LerState × ℚ × ℚ) :=
  match s.gw_param with
  | none => none
  | some gp =>
    let snr := gp.get "opt_snr_net"
    let pdet := snr.map (fun x => 1 - Phi (snr_threshold - x))
    let idx_detectable := snr.map (fun x => decide (snr_threshold < x))
    some ({ s with gw_param_detectable := some (unlensedDetectable Phi snr_threshold gp) },
      unlensedRateStep c0 idx_detectable, unlensedRatePdet c0 pdet)

/-- The detectable subset computed by `lensed_rate` (lines 461-497): the
`pdet_net` field (the *last* inner-loop `pdet`, line 488) is added on the
copy, then every field is filtered by the hit mask. -/
def lensedDetectable (Phi : ℚ → ℚ) (thr : List ℚ) (nimg : List ℕ)
    (lp : LensedStore) : LensedStore :=
  let cols := consumedThresholds thr nimg
  let tLast := cols.getLastD 0
  let pdetLast := lp.opt_snr_net.map
    (fun row => 1 - Phi (tLast - (sortDesc row).getD (cols.length - 1) 0))
  LensedStore.filterRows
    { lp with fields1 := lp.fields1.set "pdet_net" pdetLast }
    (lensedSnrHit thr nimg lp.opt_snr_net)

/-- `lensed_rate` (lines 437-518) on an already-sampled population.  When the
threshold loop body never runs (no consumed columns) line 488 reads the
unbound local `pdet` (`NameError`), modelled as `none`.  The `weights` array
is read from the copy before filtering (line 491). -/
def lensed_rate (Phi : ℚ → ℚ) (c0 : ℚ) (thr : List ℚ) (nimg : List ℕ)
    (s : LerState) : Option (LerState × ℚ × ℚ) :=
  match s.lensed_param with
  | none => none
  | some lp =>
    if consumedThresholds thr nimg = [] then none
    else
      let snr_hit := lensedSnrHit thr nimg lp.opt_snr_net
      let pdet_combined := pdetCombined Phi thr nimg lp.opt_snr_net
      let weights := lp.fields1.get "weights"
      some ({ s with lensed_param_detectable := some (lensedDetectable Phi thr nimg lp) },
        lensedRateStep c0 snr_hit weights, lensedRatePdet c0 pdet_combined weights)

/-! ## Concrete instances used by witnesses and counterexamples -/

/-- A linear stand-in for the standard normal CDF: it satisfies the symmetry
`Phi (-x) = 1 - Phi x` that the proofs rely on. -/
def PhiLin : ℚ → ℚ := fun x => (1 + x) / 2

/-- A concrete `phi_q2_ellipticity` collaborator. -/
def phiQ2eZero : ℚ → ℚ → ℚ × ℚ := fun _ _ => ((0 : ℚ), (0 : ℚ))

/-- The identity optical depth (monotone). -/
def tauId : ℚ → ℚ := fun z => z

/-- Draws with every array empty (a `size = 0` invocation). -/
def emptyDraws : Routine1Draws :=
  ⟨[], [], [], [], [], [], [], [], [], []⟩

/-- First round of the concrete two-round `sample_all_routine1` run: of the
candidates `zs = [10, 20]`, only the first row is accepted (`u = 2 < 3² = 9`
but `5 ≥ 1² = 1`). -/
def cDraws1 : Routine1Draws :=
  ⟨[10, 20], [1, 2], [5, 6], [1, 1], [3, 1], [2, 5], [0, 0], [0, 0], [0, 0], [0, 0]⟩

/-- Second round: of the candidates `zs = [30, 40]`, only the second row is
accepted (`u = 2 ≥ 1² = 1` but `1 < 3² = 9`). -/
def cDraws2 : Routine1Draws :=
  ⟨[30, 40], [3, 4], [7, 8], [1, 1], [1, 3], [2, 1], [0, 0], [0, 0], [0, 0], [0, 0]⟩

def DrawsWF (d : Routine1Draws) (size : ℕ) : Prop :=
  d.zsCand.length = size ∧ d.zl.length = size ∧ d.sigma.length = size ∧
  d.q.length = size ∧ d.thetaE.length = size ∧ d.uRjs.length = size ∧
  d.phi.length = size ∧ d.gamma1.length = size ∧ d.gamma2.length = size ∧
  d.gammaSpec.length = size
/-- A single all-accepted round of size 1, used by the C1 witness. -/
def cDrawsW : Routine1Draws :=
  ⟨[10], [1], [5], [1], [3], [2], [0], [0], [0], [0]⟩
/-- The accumulated one-row input for the C7 witness. -/
def cInput1 : Batch :=
  [("zl", [1]), ("zs", [10]), ("sigma", [5]), ("q", [1]), ("theta_E", [3])]
/-- The constant sampler used by the C8 witness. -/
def sampC : ℕ → ℕ → List ℚ := fun _ n => List.replicate n 0
/-- The row-preserving enrichment used by the C8 witness. -/
def enrichId : ℕ → List ℚ → List ℚ := fun _ xs => xs
/-- A one-system unlensed population for the C10 witness. -/
def gpEx : Batch := [("opt_snr_net", [9]), ("zs", [1])]
/-- A one-system lensed population for the C10 witness. -/
def lpEx : LensedStore := ⟨[("weights", [1]), ("zs", [1])], [[9, 0]]⟩
/-- A state holding both populations, for the C10 witness. -/
def sEx : LerState := ⟨some gpEx, none, some lpEx, none⟩

/-! ## Supporting lemmas -/

theorem snrHitRow_eq (row : List ℚ) (L : List ℚ) (c : ℕ) (acc : Bool) :
    snrHitRow row L c acc =
      (acc && (List.enumFrom c L).all (fun p => decide (p.2 < row.getD p.1 0))) := by
  induction L generalizing c acc with
  | nil => simp [snrHitRow]
  | cons t ts ih =>
      simp [snrHitRow, ih, List.enumFrom, Bool.and_assoc]

theorem pdetRowAux_eq (Phi : ℚ → ℚ) (row : List ℚ) (L : List ℚ) (c : ℕ) (acc : ℚ) :
    pdetRowAux Phi row L c acc =
      acc * ((List.enumFrom c L).map (fun p => 1 - Phi (p.2 - row.getD p.1 0))).prod := by
  induction L generalizing c acc with
  | nil => simp [pdetRowAux]
  | cons t ts ih =>
      simp [pdetRowAux, ih, List.enumFrom, mul_assoc]

theorem insertPairDesc_map_fst (g : ℚ × ℕ → ℚ × ℕ) (hg : ∀ p, (g p).1 = p.1)
    (x : ℚ × ℕ) (l : List (ℚ × ℕ)) :
    insertPairDesc (g x) (l.map g) = (insertPairDesc x l).map g := by
  induction l with
  | nil => simp [insertPairDesc]
  | cons y ys ih =>
      simp only [List.map_cons, insertPairDesc, hg]
      by_cases h : y.1 < x.1 <;> simp [h, ih, hg]

theorem sortPairsDesc_map_fst (g : ℚ × ℕ → ℚ × ℕ) (hg : ∀ p, (g p).1 = p.1)
    (l : List (ℚ × ℕ)) :
    sortPairsDesc (l.map g) = (sortPairsDesc l).map g := by
  induction l with
  | nil => rfl
  | cons x xs ih =>
      simp only [sortPairsDesc, List.map_cons, List.foldr_cons] at *
      rw [ih, insertPairDesc_map_fst g hg]

theorem mem_insertPairDesc {y x : ℚ × ℕ} {l : List (ℚ × ℕ)}
    (h : y ∈ insertPairDesc x l) : y = x ∨ y ∈ l := by
  induction l with
  | nil => simp [insertPairDesc] at h; exact Or.inl h
  | cons z zs ih =>
      simp only [insertPairDesc] at h
      by_cases hc : z.1 < x.1
      · simp [hc] at h
        rcases h with h | h | h
        · exact Or.inl h
        · exact Or.inr (by simp [h])
        · exact Or.inr (by simp [h])
      · simp [hc] at h
        rcases h with h | h
        · exact Or.inr (by simp [h])
        · rcases ih h with h' | h'
          · exact Or.inl h'
          · exact Or.inr (by simp [h'])

theorem mem_sortPairsDesc {y : ℚ × ℕ} {l : List (ℚ × ℕ)}
    (h : y ∈ sortPairsDesc l) : y ∈ l := by
  induction l with
  | nil => simpa [sortPairsDesc] using h
  | cons x xs ih =>
      simp only [sortPairsDesc, List.foldr_cons] at h
      rcases mem_insertPairDesc h with h' | h'
      · simp [h']
      · exact List.mem_cons_of_mem _ (ih h')

theorem enumFrom_swap_map (thr : List ℚ) (nimg : List ℕ) :
    ∀ c : ℕ, thr.length + c ≤ nimg.length →
      ((List.enumFrom c thr).map (fun p => (p.2, p.1))).map
          (fun p => (p.1, nimg.getD p.2 0)) =
        thr.zip (nimg.drop c) := by
  induction thr with
  | nil => intro c _; simp
  | cons t ts ih =>
      intro c hc
      have hlt : c < nimg.length := by
        simp [List.length_cons] at hc; omega
      rw [List.drop_eq_getElem_cons hlt]
      simp only [List.enumFrom, List.map_cons, List.zip_cons_cons]
      refine congrArg₂ _ ?_ ?_
      · rw [List.getD_eq_getElem nimg 0 hlt]
      · exact ih (c + 1) (by simp [List.length_cons] at hc ⊢; omega)

theorem mem_enumFrom_swap (thr : List ℚ) :
    ∀ (c : ℕ) (p : ℚ × ℕ),
      p ∈ (List.enumFrom c thr).map (fun q => (q.2, q.1)) →
      c ≤ p.2 ∧ thr.getD (p.2 - c) 0 = p.1 := by
  induction thr with
  | nil => intro c p hp; simp at hp
  | cons t ts ih =>
      intro c p hp
      simp only [List.enumFrom, List.map_cons, List.mem_cons] at hp
      rcases hp with hp | hp
      · subst hp; simp
      · rcases ih (c + 1) p hp with ⟨h1, h2⟩
        refine ⟨by omega, ?_⟩
        have : p.2 - c = (p.2 - (c + 1)) + 1 := by omega
        rw [this]
        simpa using h2

theorem consumedThresholds_eq_selectionExpand (thr : List ℚ) (nimg : List ℕ)
    (hlen : thr.length = nimg.length) :
    consumedThresholds thr nimg = selectionExpand (thr.zip nimg) := by
  have hzip : thr.zip nimg =
      ((thr.enum.map (fun p => (p.2, p.1))).map (fun p => (p.1, nimg.getD p.2 0))) := by
    rw [show thr.enum = List.enumFrom 0 thr from rfl,
      enumFrom_swap_map thr nimg 0 (by omega)]
    simp
  rw [selectionExpand, hzip,
    sortPairsDesc_map_fst (fun p => (p.1, nimg.getD p.2 0)) (fun p => rfl)]
  rw [consumedThresholds, argsortDesc, List.flatMap_map, List.flatMap_map]
  refine List.flatMap_congr ?_
  intro p hp
  have hmem := mem_sortPairsDesc hp
  have h2 := (mem_enumFrom_swap thr 0 p (by simpa using hmem)).2
  simp only [Nat.sub_zero] at h2
  simp only [Function.comp]
  rw [h2]

/-! ## Claim theorems -/

/-- Claim C2: the detection hit mask of `lensed_rate` is computed by sorting
the requirements by descending threshold, sorting each system's image signals
in descending order, consuming for each requirement its count of
not-yet-consumed columns, requiring each to exceed that requirement's
threshold, and AND-ing all comparisons; the witness checks the two concrete
examples of the spec. -/
theorem ranked_hit_mask_eq_spec (thr : List ℚ) (nimg : List ℕ)
    (snr : List (List ℚ)) (hlen : thr.length = nimg.length) :
    lensedSnrHit thr nimg snr = hitMaskSpec snr (thr.zip nimg) := by
  unfold lensedSnrHit hitMaskSpec
  refine List.map_congr_left (fun row _ => ?_)
  rw [snrHitRow_eq, consumedThresholds_eq_selectionExpand thr nimg hlen]
  simp [List.enum]

theorem ranked_hit_mask_eq_spec_witness :
    lensedSnrHit [8, 5] [1, 1] [[10, 7], [9, 2], [3, 1]] =
      hitMaskSpec [[10, 7], [9, 2], [3, 1]] [(8, 1), (5, 1)] ∧
    hitMaskSpec [[10, 7], [9, 2], [3, 1]] [(8, 1), (5, 1)] = [true, false, false] ∧
    lensedSnrHit [8] [1] [[10, 7], [9, 2], [3, 1]] = [true, true, false] :=
  ⟨ranked_hit_mask_eq_spec [8, 5] [1, 1] [[10, 7], [9, 2], [3, 1]] rfl,
   by decide, by decide⟩

/-- Claim C3: the joint detection probability `pdet_combined` equals, for
each system, the product over exactly the consumed columns of the
descending-sorted signal array of `Φ(signal − threshold)`, where each
column's threshold comes from the requirement that consumed it (using the
symmetry `Φ(-x) = 1 - Φ(x)` of the standard normal CDF, since the code
computes `1 - Φ(threshold - signal)`). -/
theorem joint_pdet_eq_spec (Phi : ℚ → ℚ) (thr : List ℚ) (nimg : List ℕ)
    (snr : List (List ℚ)) (hlen : thr.length = nimg.length)
    (hsym : ∀ x : ℚ, Phi (-x) = 1 - Phi x) :
    pdetCombined Phi thr nimg snr = jointPdetSpec Phi snr (thr.zip nimg) := by
  unfold pdetCombined jointPdetSpec
  refine List.map_congr_left (fun row _ => ?_)
  rw [pdetRowAux_eq, consumedThresholds_eq_selectionExpand thr nimg hlen, one_mul]
  refine congrArg List.prod (List.map_congr_left (fun p _ => ?_))
  have h := hsym (p.2 - (sortDesc row).getD p.1 0)
  rw [neg_sub] at h
  exact h.symm

theorem joint_pdet_eq_spec_witness :
    pdetCombined PhiLin [8, 5] [1, 1] [[10, 7], [9, 2], [3, 1]] =
      jointPdetSpec PhiLin [[10, 7], [9, 2], [3, 1]] [(8, 1), (5, 1)] :=
  joint_pdet_eq_spec PhiLin [8, 5] [1, 1] [[10, 7], [9, 2], [3, 1]] rfl
    (fun x => by unfold PhiLin; ring)

theorem zipWith_mul_one (xs : List ℚ) :
    List.zipWith (fun a w => a * w) xs (List.replicate xs.length 1) = xs := by
  induction xs with
  | nil => rfl
  | cons x l ih => simp [List.replicate, ih]


/-- Claim C4: every rate estimate equals `C0 * mean(indicator_or_probability
* weight)`, with weight identically 1 in the unlensed case and the
per-system `weights` field in the lensed case; concretely, with `C0 = 2` an
indicator array of 10 values with three ones gives step rate `3/5`, and a
probability array of mean `2/5` gives pdet rate `4/5`. -/
theorem rate_estimator_formula :
    (∀ (c0 : ℚ) (mask : List Bool),
        unlensedRateStep c0 mask =
          rateFormula c0 (mask.map boolToQ) (List.replicate mask.length 1)) ∧
    (∀ (c0 : ℚ) (pdet : List ℚ),
        unlensedRatePdet c0 pdet = rateFormula c0 pdet (List.replicate pdet.length 1)) ∧
    (∀ (c0 : ℚ) (hit : List Bool) (w : List ℚ),
        lensedRateStep c0 hit w = rateFormula c0 (hit.map boolToQ) w) ∧
    (∀ (c0 : ℚ) (pc w : List ℚ), lensedRatePdet c0 pc w = rateFormula c0 pc w) ∧
    (∀ (Phi : ℚ → ℚ) (c0 : ℚ) (thr : List ℚ) (nimg : List ℕ) (s : LerState)
        (lp : LensedStore), s.lensed_param = some lp →
        consumedThresholds thr nimg ≠ [] →
        (lensed_rate Phi c0 thr nimg s).map (fun r => r.2) =
          some (lensedRateStep c0 (lensedSnrHit thr nimg lp.opt_snr_net)
              (Batch.get lp.fields1 "weights"),
            lensedRatePdet c0 (pdetCombined Phi thr nimg lp.opt_snr_net)
              (Batch.get lp.fields1 "weights"))) ∧
    unlensedRateStep 2 [true, true, true, false, false, false, false, false, false, false]
      = 3/5 ∧
    lensedRateStep 2 [true, true, true, false, false, false, false, false, false, false]
      (List.replicate 10 1) = 3/5 ∧
    unlensedRatePdet 2 [2/5, 2/5, 2/5, 2/5, 2/5, 2/5, 2/5, 2/5, 2/5, 2/5] = 4/5 ∧
    lensedRatePdet 2 [2/5, 2/5, 2/5, 2/5, 2/5, 2/5, 2/5, 2/5, 2/5, 2/5]
      (List.replicate 10 1) = 4/5 := by
  refine ⟨?_, ?_, ?_, ?_, ?_, ?_, ?_, ?_, ?_⟩
  · intro c0 mask
    rw [unlensedRateStep, rateFormula]
    rw [show mask.length = (mask.map boolToQ).length from (List.length_map mask boolToQ).symm]
    rw [zipWith_mul_one]
  · intro c0 pdet
    rw [unlensedRatePdet, rateFormula, zipWith_mul_one]
  · intro c0 hit w
    rw [lensedRateStep, rateFormula, List.zipWith_map_left]
  · intro c0 pc w
    rfl
  · intro Phi c0 thr nimg s lp hlp hcols
    simp [lensed_rate, hlp, hcols]
  · norm_num [unlensedRateStep, meanQ, boolToQ]
  · norm_num [lensedRateStep, meanQ, boolToQ, List.replicate]
  · norm_num [unlensedRatePdet, meanQ]
  · norm_num [lensedRatePdet, meanQ, List.replicate]

theorem zs_function_spec (tau : ℚ → ℚ) (size : ℕ) :
    ∀ (rounds : List SlRound) (acc out : List ℚ),
      zs_function tau size rounds acc = some out →
      out = (acc ++ acceptedStream tau rounds).take size ∧ out.length = size := by
  intro rounds
  induction rounds with
  | nil => intro acc out h; simp [zs_function] at h
  | cons r rest ih =>
      intro acc out h
      obtain ⟨zs, u⟩ := r
      simp only [zs_function] at h
      set accepted :=
        ((zs.zip u).filter (fun p => decide (p.2 < tau p.1))).map (fun p => p.1)
        with haccepted
      have hstream : acceptedStream tau ((zs, u) :: rest) =
          accepted ++ acceptedStream tau rest := by
        simp [acceptedStream, haccepted]
      by_cases hle : size ≤ (acc ++ accepted).length
      · rw [if_pos hle] at h
        obtain rfl := Option.some.inj h
        constructor
        · rw [hstream, ← List.append_assoc,
            List.take_append_of_le_length hle]
        · rw [List.length_take]
          omega
      · rw [if_neg hle] at h
        obtain ⟨h1, h2⟩ := ih (acc ++ accepted) out h
        refine ⟨?_, h2⟩
        rw [h1, hstream, ← List.append_assoc]

/-- Claim C5: each round of `strongly_lensed_source_redshifts` accepts
candidate `z` iff its uniform draw `u < τ(z)` (the draw lying in
`[0, τ(z_max))`), accepted redshifts are appended in insertion order across
rounds without re-sorting, the loop stops once the accumulated count reaches
`size`, and exactly the first `size` accepted values are returned — with the
monotonicity of τ guaranteeing that `τ(z_max)` bounds τ on the support. -/
theorem sl_redshift_rejection (tau : ℚ → ℚ) (zmax : ℚ) (size : ℕ)
    (rounds : List SlRound) (out : List ℚ)
    (hmono : ∀ a b : ℚ, a ≤ b → tau a ≤ tau b)
    (hsup : ∀ r ∈ rounds, ∀ z ∈ r.1, z ≤ zmax)
    (hdraw : ∀ r ∈ rounds, ∀ x ∈ r.2, 0 ≤ x ∧ x < tau zmax)
    (hret : strongly_lensed_source_redshifts tau size rounds = some out) :
    out = (acceptedStream tau rounds).take size ∧ out.length = size ∧
    (∀ r ∈ rounds, ∀ z ∈ r.1, tau z ≤ tau zmax) := by
  obtain ⟨h1, h2⟩ := zs_function_spec tau size rounds [] out hret
  refine ⟨by simpa using h1, h2, ?_⟩
  intro r hr z hz
  exact hmono z zmax (hsup r hr z hz)

theorem sl_redshift_rejection_witness :
    strongly_lensed_source_redshifts tauId 1 [([1, 2], [0, 3])] = some [1] ∧
    [(1 : ℚ)] = (acceptedStream tauId [([1, 2], [0, 3])]).take 1 ∧
    ([(1 : ℚ)]).length = 1 :=
  ⟨by decide,
   (sl_redshift_rejection tauId 5 1 [([1, 2], [0, 3])] [1]
      (fun a b hab => hab)
      (by intro r hr z hz; simp at hr; subst hr; simp [tauId] at hz ⊢; rcases hz with rfl | rfl
          · norm_num
          · norm_num)
      (by intro r hr x hx; simp at hr; subst hr; simp [tauId] at hx ⊢; rcases hx with rfl | rfl
          · norm_num
          · norm_num)
      (by decide)).1,
   rfl⟩

theorem zip_map_getD (f : ℚ × ℚ → Bool) (u v : List ℚ) (i : ℕ)
    (hiu : i < u.length) (hiv : i < v.length) :
    ((u.zip v).map f).getD i false = f (u.getD i 0, v.getD i 0) := by
  have hz : i < ((u.zip v).map f).length := by
    simp [List.length_zip]; omega
  rw [List.getD_eq_getElem _ _ hz, List.getElem_map, List.getElem_zip,
    List.getD_eq_getElem _ _ hiu, List.getD_eq_getElem _ _ hiv]

theorem of_mem_zipWithQ (f : ℚ → ℚ → ℚ) :
    ∀ (as bs : List ℚ) (y : ℚ), y ∈ List.zipWith f as bs →
      ∃ a ∈ as, ∃ c ∈ bs, y = f a c := by
  intro as
  induction as with
  | nil => intro bs y h; simp at h
  | cons a as ih =>
      intro bs y h
      cases bs with
      | nil => simp at h
      | cons c cs =>
          simp only [List.zipWith_cons_cons, List.mem_cons] at h
          rcases h with rfl | h
          · exact ⟨a, by simp, c, by simp, rfl⟩
          · obtain ⟨a2, ha, c2, hc, rfl⟩ := ih cs y h
            exact ⟨a2, by simp [ha], c2, by simp [hc], rfl⟩

theorem crossSection_ne_nil (phiCut : ℚ → ℚ) (b : Batch)
    (hne : Batch.get b "theta_E" ≠ [])
    (hq : (Batch.get b "q").length = (Batch.get b "theta_E").length) :
    List.zipWith (fun t qi => t ^ 2 * phiCut qi)
      (Batch.get b "theta_E") (Batch.get b "q") ≠ [] := by
  intro hc
  apply hne
  have hlen := congrArg List.length hc
  rw [List.length_zipWith, hq, min_self] at hlen
  exact List.length_eq_zero.mp hlen

/-- Claim C6: for a nonempty batch, the Einstein-radius rule accepts row `i`
iff the fresh uniform draw `u_i` (on `[0, max(theta_E)²)`) is strictly below
`theta_E[i]²`, the cross-section rule accepts row `i` iff its draw is strictly
below `theta_E[i]² · phi_cut(q[i])`, and in both rules every field of the
batch is filtered by the same acceptance mask. -/
theorem geometric_rejection_rules (phiCut : ℚ → ℚ) (u : List ℚ) (b : Batch)
    (hne : Batch.get b "theta_E" ≠ [])
    (hq : (Batch.get b "q").length = (Batch.get b "theta_E").length)
    (hu : ∀ x ∈ u, 0 ≤ x ∧ x < qmax (Batch.get b "theta_E") ^ 2) :
    rjs_with_einstein_radius u b =
      some (b.map (fun kv =>
        (kv.1, maskFilter (einsteinMask u (Batch.get b "theta_E")) kv.2))) ∧
    (∀ i, i < u.length → i < (Batch.get b "theta_E").length →
      (einsteinMask u (Batch.get b "theta_E")).getD i false =
        decide (u.getD i 0 < (Batch.get b "theta_E").getD i 0 ^ 2)) ∧
    rjs_with_cross_section phiCut u b =
      some (b.map (fun kv =>
        (kv.1, maskFilter
          (crossSectionMask phiCut u (Batch.get b "theta_E") (Batch.get b "q"))
          kv.2))) ∧
    (∀ i, i < u.length → i < (Batch.get b "theta_E").length →
      (crossSectionMask phiCut u (Batch.get b "theta_E") (Batch.get b "q")).getD
          i false =
        decide (u.getD i 0 <
          (Batch.get b "theta_E").getD i 0 ^ 2 *
            phiCut ((Batch.get b "q").getD i 0))) := by
  refine ⟨?_, ?_, ?_, ?_⟩
  · rw [rjs_with_einstein_radius]
    simp only [List.isEmpty_iff]
    rw [if_neg hne]
  · intro i hiu hit
    exact zip_map_getD _ u _ i hiu hit
  · rw [rjs_with_cross_section]
    have hcs := crossSection_ne_nil phiCut b hne hq
    simp only [List.isEmpty_iff]
    rw [if_neg hcs]
  · intro i hiu hit
    have hzw : i < (List.zipWith (fun t qi => t ^ 2 * phiCut qi)
        (Batch.get b "theta_E") (Batch.get b "q")).length := by
      simp [List.length_zipWith]; omega
    rw [crossSectionMask,
      zip_map_getD _ u _ i hiu hzw]
    have : (List.zipWith (fun t qi => t ^ 2 * phiCut qi)
        (Batch.get b "theta_E") (Batch.get b "q")).getD i 0 =
        (Batch.get b "theta_E").getD i 0 ^ 2 * phiCut ((Batch.get b "q").getD i 0) := by
      rw [List.getD_eq_getElem _ _ hzw, List.getElem_zipWith,
        List.getD_eq_getElem _ _ hit, List.getD_eq_getElem _ _ (by omega : i < (Batch.get b "q").length)]
    rw [this]

theorem geometric_rejection_rules_witness :
    rjs_with_einstein_radius [1, 3] [("theta_E", [2, 1]), ("q", [1, 1])] =
      some ([("theta_E", [2, 1]), ("q", [1, 1])].map (fun kv =>
        (kv.1, maskFilter (einsteinMask [1, 3]
          (Batch.get [("theta_E", [2, 1]), ("q", [1, 1])] "theta_E")) kv.2))) ∧
    rjs_with_cross_section tauId [1, 3] [("theta_E", [2, 1]), ("q", [1, 1])] =
      some ([("theta_E", [2, 1]), ("q", [1, 1])].map (fun kv =>
        (kv.1, maskFilter (crossSectionMask tauId [1, 3]
          (Batch.get [("theta_E", [2, 1]), ("q", [1, 1])] "theta_E")
          (Batch.get [("theta_E", [2, 1]), ("q", [1, 1])] "q")) kv.2))) :=
  ⟨(geometric_rejection_rules tauId [1, 3] [("theta_E", [2, 1]), ("q", [1, 1])]
      (by decide) (by decide) (by decide)).1,
   (geometric_rejection_rules tauId [1, 3] [("theta_E", [2, 1]), ("q", [1, 1])]
      (by decide) (by decide) (by decide)).2.2.1⟩

theorem maskFilter_of_allFalse (mask : List Bool) (xs : List ℚ)
    (h : ∀ m ∈ mask, m = false) : maskFilter mask xs = [] := by
  induction mask generalizing xs with
  | nil => simp [maskFilter]
  | cons m ms ih =>
      cases xs with
      | nil => simp [maskFilter]
      | cons x l =>
          have hm : m = false := h m (by simp)
          subst hm
          simpa [maskFilter, List.zip_cons_cons] using
            ih l (fun m hm => h m (by simp [hm]))

/-- Claim C9 (amended): on an empty candidate batch both rejection rules fail
(the `np.max` of an empty array raises `ValueError`) — before any draw; but
when the maximum weight is zero over a nonempty batch, the width-zero uniform
draw is performed (numpy returns 0), no row passes the strict comparison, and
the rule silently returns a batch whose every field is empty, with no
explicit failure. -/
theorem degenerate_rejection_amended (phiCut : ℚ → ℚ) (u : List ℚ) (b : Batch) :
    (Batch.get b "theta_E" = [] →
      rjs_with_einstein_radius u b = none ∧
      rjs_with_cross_section phiCut u b = none) ∧
    (Batch.get b "theta_E" ≠ [] →
      (Batch.get b "q").length = (Batch.get b "theta_E").length →
      (∀ t ∈ Batch.get b "theta_E", t = 0) → (∀ x ∈ u, x = 0) →
      rjs_with_einstein_radius u b =
        some (b.map (fun kv => (kv.1, ([] : List ℚ)))) ∧
      rjs_with_cross_section phiCut u b =
        some (b.map (fun kv => (kv.1, ([] : List ℚ))))) := by
  constructor
  · intro hempty
    constructor
    · rw [rjs_with_einstein_radius]
      simp [hempty]
    · rw [rjs_with_cross_section]
      simp [hempty]
  · intro hne hql hz hu
    have hmaskE : ∀ m ∈ einsteinMask u (Batch.get b "theta_E"), m = false := by
      intro m hm
      rw [einsteinMask] at hm
      obtain ⟨p, hp, rfl⟩ := List.mem_map.mp hm
      have h1 : p.1 = 0 := hu p.1 (List.of_mem_zip hp).1
      have h2 : p.2 = 0 := hz p.2 (List.of_mem_zip hp).2
      simp [h1, h2]
    have hmaskC : ∀ m ∈ crossSectionMask phiCut u (Batch.get b "theta_E")
        (Batch.get b "q"), m = false := by
      intro m hm
      rw [crossSectionMask] at hm
      obtain ⟨p, hp, rfl⟩ := List.mem_map.mp hm
      have h1 : p.1 = 0 := hu p.1 (List.of_mem_zip hp).1
      obtain ⟨a, ha, c, hc, hac⟩ := of_mem_zipWithQ _ _ _ p.2 (List.of_mem_zip hp).2
      have ha0 : a = 0 := hz a ha
      simp [hac, ha0, h1]
    constructor
    · rw [rjs_with_einstein_radius]
      simp only [List.isEmpty_iff]
      rw [if_neg hne]
      refine congrArg _ (List.map_congr_left (fun kv _ => ?_))
      rw [maskFilter_of_allFalse _ _ hmaskE]
    · rw [rjs_with_cross_section]
      simp only [List.isEmpty_iff]
      rw [if_neg (crossSection_ne_nil phiCut b hne hql)]
      refine congrArg _ (List.map_congr_left (fun kv _ => ?_))
      rw [maskFilter_of_allFalse _ _ hmaskC]

theorem degenerate_rejection_amended_witness :
    rjs_with_einstein_radius [0] [("theta_E", []), ("zs", [])] = none ∧
    rjs_with_einstein_radius [0] [("theta_E", [0]), ("q", [1]), ("zs", [7])] =
      some [("theta_E", []), ("q", []), ("zs", [])] ∧
    rjs_with_cross_section tauId [0] [("theta_E", [0]), ("q", [1]), ("zs", [7])] =
      some [("theta_E", []), ("q", []), ("zs", [])] :=
  ⟨((degenerate_rejection_amended tauId [0] [("theta_E", []), ("zs", [])]).1 rfl).1,
   by simpa using
     ((degenerate_rejection_amended tauId [0]
        [("theta_E", [0]), ("q", [1]), ("zs", [7])]).2 (by decide) (by decide)
        (by decide) (by decide)).1,
   by simpa using
     ((degenerate_rejection_amended tauId [0]
        [("theta_E", [0]), ("q", [1]), ("zs", [7])]).2 (by decide) (by decide)
        (by decide) (by decide)).2⟩

/-- Claim C9 counterexample: with candidate batch `theta_E = [0, 0]`
(maximum weight zero) the einstein-radius rule does not fail: it performs the
width-zero draw (numpy's `uniform(0, 0)` returns zeros) and silently returns
a batch with every field empty. -/
theorem degenerate_rejection_counterexample :
    rjs_with_einstein_radius [0, 0] [("theta_E", [0, 0]), ("zs", [1, 2])] =
      some [("theta_E", []), ("zs", [])] ∧
    rjs_with_einstein_radius [0, 0] [("theta_E", [0, 0]), ("zs", [1, 2])] ≠
      none := by
  refine ⟨by decide, ?_⟩
  intro h
  simp [show rjs_with_einstein_radius [0, 0] [("theta_E", [0, 0]), ("zs", [1, 2])] =
    some [("theta_E", []), ("zs", [])] by decide] at h


theorem lensBatch_get_thetaE (d : Routine1Draws) :
    Batch.get (lensBatchOf d) "theta_E" = d.thetaE := by
  simp [Batch.get, lensBatchOf, List.find?]

theorem rjs_einstein_of_ne (d : Routine1Draws) (hne : d.thetaE ≠ []) :
    rjs_with_einstein_radius d.uRjs (lensBatchOf d) = some (rjsAcceptedBatch d) := by
  rw [rjs_with_einstein_radius, lensBatch_get_thetaE]
  simp only [List.isEmpty_iff]
  rw [if_neg hne]
  rfl

theorem routine1_empty_step (phiQ2e : ℚ → ℚ → ℚ × ℚ) (size : ℕ) (input : Batch)
    (d : Routine1Draws) (rest : List Routine1Draws) (hte : d.thetaE = []) :
    sample_all_routine1 phiQ2e size input (d :: rest) = .valueError := by
  simp only [sample_all_routine1]
  rw [show rjs_with_einstein_radius d.uRjs (lensBatchOf d) = none by
    rw [rjs_with_einstein_radius, lensBatch_get_thetaE]; simp [hte]]

theorem routine1_recurse_step (phiQ2e : ℚ → ℚ → ℚ × ℚ) (size : ℕ) (input : Batch)
    (d : Routine1Draws) (rest : List Routine1Draws) (hne : d.thetaE ≠ [])
    (hlt : (Batch.get (add_dictionaries_together (rjsAcceptedBatch d) input)
      "zl").length < size) :
    sample_all_routine1 phiQ2e size input (d :: rest) =
      sample_all_routine1 phiQ2e size
        (add_dictionaries_together (rjsAcceptedBatch d) input) rest := by
  simp only [sample_all_routine1, rjs_einstein_of_ne d hne]
  rw [if_pos hlt]

theorem routine1_final_step (phiQ2e : ℚ → ℚ → ℚ × ℚ) (size : ℕ) (input : Batch)
    (d : Routine1Draws) (rest : List Routine1Draws) (hne : d.thetaE ≠ [])
    (hge : ¬ (Batch.get (add_dictionaries_together (rjsAcceptedBatch d) input)
      "zl").length < size) :
    sample_all_routine1 phiQ2e size input (d :: rest) =
      .ok (routine1Record phiQ2e size input d (rjsAcceptedBatch d)) d.zsCand := by
  simp only [sample_all_routine1, rjs_einstein_of_ne d hne]
  rw [if_neg hge]

theorem maskFilter_length_congr (mask : List Bool) :
    ∀ (xs ys : List ℚ), xs.length = ys.length →
      (maskFilter mask xs).length = (maskFilter mask ys).length := by
  induction mask with
  | nil => intro xs ys _; simp [maskFilter]
  | cons m ms ih =>
      intro xs ys h
      cases xs with
      | nil =>
          cases ys with
          | nil => rfl
          | cons y ys => simp at h
      | cons x xs =>
          cases ys with
          | nil => simp at h
          | cons y ys =>
              have h2 : xs.length = ys.length := by simpa using h
              cases m <;>
                simpa [maskFilter, List.zip_cons_cons] using ih xs ys h2

theorem merged_get (d : Routine1Draws) (input : Batch) :
    Batch.get (add_dictionaries_together (rjsAcceptedBatch d) input) "zl" =
        maskFilter (einsteinMask d.uRjs d.thetaE) d.zl ++ Batch.get input "zl" ∧
    Batch.get (add_dictionaries_together (rjsAcceptedBatch d) input) "zs" =
        maskFilter (einsteinMask d.uRjs d.thetaE) d.zsCand ++ Batch.get input "zs" ∧
    Batch.get (add_dictionaries_together (rjsAcceptedBatch d) input) "sigma" =
        maskFilter (einsteinMask d.uRjs d.thetaE) d.sigma ++ Batch.get input "sigma" ∧
    Batch.get (add_dictionaries_together (rjsAcceptedBatch d) input) "q" =
        maskFilter (einsteinMask d.uRjs d.thetaE) d.q ++ Batch.get input "q" ∧
    Batch.get (add_dictionaries_together (rjsAcceptedBatch d) input) "theta_E" =
        maskFilter (einsteinMask d.uRjs d.thetaE) d.thetaE ++ Batch.get input "theta_E" := by
  refine ⟨?_, ?_, ?_, ?_, ?_⟩ <;>
    simp [add_dictionaries_together, rjsAcceptedBatch, lensBatchOf, Batch.get,
      List.find?]

set_option maxHeartbeats 1000000 in
theorem routine1Record_explicit (phiQ2e : ℚ → ℚ → ℚ × ℚ) (size : ℕ)
    (input : Batch) (d : Routine1Draws) :
    routine1Record phiQ2e size input d (rjsAcceptedBatch d) =
      [("zl", (maskFilter (einsteinMask d.uRjs d.thetaE) d.zl ++
          Batch.get input "zl").take size),
       ("zs", (maskFilter (einsteinMask d.uRjs d.thetaE) d.zsCand ++
          Batch.get input "zs").take size),
       ("sigma", (maskFilter (einsteinMask d.uRjs d.thetaE) d.sigma ++
          Batch.get input "sigma").take size),
       ("q", (maskFilter (einsteinMask d.uRjs d.thetaE) d.q ++
          Batch.get input "q").take size),
       ("theta_E", (maskFilter (einsteinMask d.uRjs d.thetaE) d.thetaE ++
          Batch.get input "theta_E").take size),
       ("phi", d.phi),
       ("e1", ((d.phi.zip ((maskFilter (einsteinMask d.uRjs d.thetaE) d.q ++
          Batch.get input "q").take size)).map (fun p => phiQ2e p.1 p.2)).map
          (fun p => p.1)),
       ("e2", ((d.phi.zip ((maskFilter (einsteinMask d.uRjs d.thetaE) d.q ++
          Batch.get input "q").take size)).map (fun p => phiQ2e p.1 p.2)).map
          (fun p => p.2)),
       ("gamma1", d.gamma1), ("gamma2", d.gamma2), ("gamma", d.gammaSpec)] := by
  simp [routine1Record, trim_dictionary, add_dictionaries_together,
    rjsAcceptedBatch, lensBatchOf, Batch.set, Batch.get, List.find?]

set_option maxHeartbeats 1000000 in
theorem routine1Record_get (phiQ2e : ℚ → ℚ → ℚ × ℚ) (size : ℕ)
    (input : Batch) (d : Routine1Draws) :
    Batch.get (routine1Record phiQ2e size input d (rjsAcceptedBatch d)) "zl" =
        (maskFilter (einsteinMask d.uRjs d.thetaE) d.zl ++
          Batch.get input "zl").take size ∧
    Batch.get (routine1Record phiQ2e size input d (rjsAcceptedBatch d)) "zs" =
        (maskFilter (einsteinMask d.uRjs d.thetaE) d.zsCand ++
          Batch.get input "zs").take size ∧
    Batch.get (routine1Record phiQ2e size input d (rjsAcceptedBatch d)) "sigma" =
        (maskFilter (einsteinMask d.uRjs d.thetaE) d.sigma ++
          Batch.get input "sigma").take size ∧
    Batch.get (routine1Record phiQ2e size input d (rjsAcceptedBatch d)) "q" =
        (maskFilter (einsteinMask d.uRjs d.thetaE) d.q ++
          Batch.get input "q").take size ∧
    Batch.get (routine1Record phiQ2e size input d (rjsAcceptedBatch d)) "theta_E" =
        (maskFilter (einsteinMask d.uRjs d.thetaE) d.thetaE ++
          Batch.get input "theta_E").take size ∧
    Batch.get (routine1Record phiQ2e size input d (rjsAcceptedBatch d)) "phi" =
        d.phi ∧
    Batch.get (routine1Record phiQ2e size input d (rjsAcceptedBatch d)) "e1" =
        ((d.phi.zip ((maskFilter (einsteinMask d.uRjs d.thetaE) d.q ++
          Batch.get input "q").take size)).map (fun p => phiQ2e p.1 p.2)).map
          (fun p => p.1) ∧
    Batch.get (routine1Record phiQ2e size input d (rjsAcceptedBatch d)) "e2" =
        ((d.phi.zip ((maskFilter (einsteinMask d.uRjs d.thetaE) d.q ++
          Batch.get input "q").take size)).map (fun p => phiQ2e p.1 p.2)).map
          (fun p => p.2) ∧
    Batch.get (routine1Record phiQ2e size input d (rjsAcceptedBatch d)) "gamma1" =
        d.gamma1 ∧
    Batch.get (routine1Record phiQ2e size input d (rjsAcceptedBatch d)) "gamma2" =
        d.gamma2 ∧
    Batch.get (routine1Record phiQ2e size input d (rjsAcceptedBatch d)) "gamma" =
        d.gammaSpec := by
  rw [routine1Record_explicit]
  refine ⟨?_, ?_, ?_, ?_, ?_, ?_, ?_, ?_, ?_, ?_, ?_⟩ <;>
    simp [Batch.get, List.find?]

set_option maxHeartbeats 1000000 in
theorem routine1_ok_spec (phiQ2e : ℚ → ℚ → ℚ × ℚ) (size : ℕ) :
    ∀ (rounds : List Routine1Draws) (input : Batch) (m : ℕ),
      (∀ d ∈ rounds, DrawsWF d size) →
      ((Batch.get input "zl").length = m ∧ (Batch.get input "zs").length = m ∧
       (Batch.get input "sigma").length = m ∧ (Batch.get input "q").length = m ∧
       (Batch.get input "theta_E").length = m) →
      ∀ record zsP, sample_all_routine1 phiQ2e size input rounds = .ok record zsP →
        ((Batch.get record "zl").length = size ∧
         (Batch.get record "zs").length = size ∧
         (Batch.get record "sigma").length = size ∧
         (Batch.get record "q").length = size ∧
         (Batch.get record "theta_E").length = size ∧
         (Batch.get record "phi").length = size ∧
         (Batch.get record "e1").length = size ∧
         (Batch.get record "e2").length = size ∧
         (Batch.get record "gamma1").length = size ∧
         (Batch.get record "gamma2").length = size ∧
         (Batch.get record "gamma").length = size) ∧ zsP.length = size := by
  intro rounds
  induction rounds with
  | nil =>
      intro input m _ _ record zsP h
      simp [sample_all_routine1] at h
  | cons d rest ih =>
      intro input m hwf hin record zsP h
      obtain ⟨hd1, hd2, hd3, hd4, hd5, hd6, hd7, hd8, hd9, hd10⟩ :=
        hwf d (by simp)
      by_cases hte : d.thetaE = []
      · rw [routine1_empty_step phiQ2e size input d rest hte] at h
        exact absurd h (by simp)
      · obtain ⟨hm1, hm2, hm3, hm4, hm5⟩ := merged_get d input
        have hc2 : (maskFilter (einsteinMask d.uRjs d.thetaE) d.zsCand).length =
            (maskFilter (einsteinMask d.uRjs d.thetaE) d.zl).length :=
          maskFilter_length_congr _ d.zsCand d.zl (by rw [hd1, hd2])
        have hc3 : (maskFilter (einsteinMask d.uRjs d.thetaE) d.sigma).length =
            (maskFilter (einsteinMask d.uRjs d.thetaE) d.zl).length :=
          maskFilter_length_congr _ d.sigma d.zl (by rw [hd3, hd2])
        have hc4 : (maskFilter (einsteinMask d.uRjs d.thetaE) d.q).length =
            (maskFilter (einsteinMask d.uRjs d.thetaE) d.zl).length :=
          maskFilter_length_congr _ d.q d.zl (by rw [hd4, hd2])
        have hc5 : (maskFilter (einsteinMask d.uRjs d.thetaE) d.thetaE).length =
            (maskFilter (einsteinMask d.uRjs d.thetaE) d.zl).length :=
          maskFilter_length_congr _ d.thetaE d.zl (by rw [hd5, hd2])
        by_cases hlt : (Batch.get (add_dictionaries_together
            (rjsAcceptedBatch d) input) "zl").length < size
        · rw [routine1_recurse_step phiQ2e size input d rest hte hlt] at h
          refine ih (add_dictionaries_together (rjsAcceptedBatch d) input)
            ((maskFilter (einsteinMask d.uRjs d.thetaE) d.zl).length + m)
            (fun d2 hd2m => hwf d2 (by simp [hd2m])) ?_ record zsP h
          refine ⟨?_, ?_, ?_, ?_, ?_⟩
          · rw [hm1, List.length_append, hin.1]
          · rw [hm2, List.length_append, hin.2.1, hc2]
          · rw [hm3, List.length_append, hin.2.2.1, hc3]
          · rw [hm4, List.length_append, hin.2.2.2.1, hc4]
          · rw [hm5, List.length_append, hin.2.2.2.2, hc5]
        · rw [routine1_final_step phiQ2e size input d rest hte hlt] at h
          injection h with hrec hzsP
          subst hrec
          subst hzsP
          have hsz : size ≤
              (maskFilter (einsteinMask d.uRjs d.thetaE) d.zl).length + m := by
            rw [hm1, List.length_append, hin.1] at hlt
            omega
          obtain ⟨hr1, hr2, hr3, hr4, hr5, hr6, hr7, hr8, hr9, hr10, hr11⟩ :=
            routine1Record_get phiQ2e size input d
          refine ⟨⟨?_, ?_, ?_, ?_, ?_, ?_, ?_, ?_, ?_, ?_, ?_⟩, hd1⟩
          · rw [hr1, List.length_take, List.length_append, hin.1]; omega
          · rw [hr2, List.length_take, List.length_append, hin.2.1, hc2]; omega
          · rw [hr3, List.length_take, List.length_append, hin.2.2.1, hc3]; omega
          · rw [hr4, List.length_take, List.length_append, hin.2.2.2.1, hc4]
            omega
          · rw [hr5, List.length_take, List.length_append, hin.2.2.2.2, hc5]
            omega
          · rw [hr6, hd7]
          · rw [hr7, List.length_map, List.length_map, List.length_zip,
              List.length_take, List.length_append, hin.2.2.2.1, hc4, hd7]
            omega
          · rw [hr8, List.length_map, List.length_map, List.length_zip,
              List.length_take, List.length_append, hin.2.2.2.1, hc4, hd7]
            omega
          · rw [hr9, hd8]
          · rw [hr10, hd9]
          · rw [hr11, hd10]

/-- Claim C1 (amended): `strongly_lensed_source_redshifts` returns exactly
`size` values whenever it terminates, for every `size` including 0; the
composite `sample_all_routine1` returns exactly `size` rows in every field
of the record (and hands a length-`size` redshift array to the source
sampler) whenever it returns normally — but at requested size 0 it does not
return an empty batch: the rejection step's `np.max` on the empty candidate
`theta_E` raises `ValueError`. -/
theorem quota_exactness_amended (tau : ℚ → ℚ) (phiQ2e : ℚ → ℚ → ℚ × ℚ)
    (size : ℕ) (slrounds : List SlRound) (zsOut : List ℚ)
    (rounds : List Routine1Draws) (input : Batch) (m : ℕ) (record : Batch)
    (zsP : List ℚ)
    (hsl : strongly_lensed_source_redshifts tau size slrounds = some zsOut)
    (hwf : ∀ d ∈ rounds, DrawsWF d size)
    (hin : (Batch.get input "zl").length = m ∧
      (Batch.get input "zs").length = m ∧
      (Batch.get input "sigma").length = m ∧
      (Batch.get input "q").length = m ∧
      (Batch.get input "theta_E").length = m)
    (hok : sample_all_routine1 phiQ2e size input rounds = .ok record zsP) :
    zsOut.length = size ∧
    ((Batch.get record "zl").length = size ∧
     (Batch.get record "zs").length = size ∧
     (Batch.get record "sigma").length = size ∧
     (Batch.get record "q").length = size ∧
     (Batch.get record "theta_E").length = size ∧
     (Batch.get record "phi").length = size ∧
     (Batch.get record "e1").length = size ∧
     (Batch.get record "e2").length = size ∧
     (Batch.get record "gamma1").length = size ∧
     (Batch.get record "gamma2").length = size ∧
     (Batch.get record "gamma").length = size) ∧
    zsP.length = size ∧
    (∀ (d0 : Routine1Draws) (rest : List Routine1Draws) (inp : Batch),
      d0.thetaE = [] →
      sample_all_routine1 phiQ2e 0 inp (d0 :: rest) = .valueError) :=
  ⟨(zs_function_spec tau size slrounds [] zsOut hsl).2,
   (routine1_ok_spec phiQ2e size rounds input m hwf hin record zsP hok).1,
   (routine1_ok_spec phiQ2e size rounds input m hwf hin record zsP hok).2,
   fun d0 rest inp h0 => routine1_empty_step phiQ2e 0 inp d0 rest h0⟩


theorem quota_exactness_amended_witness :
    ([1] : List ℚ).length = 1 ∧
    (Batch.get (routine1Record phiQ2eZero 1 [] cDrawsW
      (rjsAcceptedBatch cDrawsW)) "zl").length = 1 ∧
    ([10] : List ℚ).length = 1 ∧
    sample_all_routine1 phiQ2eZero 0 [] [emptyDraws] =
      Routine1Result.valueError := by
  have h := quota_exactness_amended tauId phiQ2eZero 1 [([1, 2], [0, 3])] [1]
    [cDrawsW] [] 0
    (routine1Record phiQ2eZero 1 [] cDrawsW (rjsAcceptedBatch cDrawsW)) [10]
    (by decide)
    (by
      intro d0 hd0
      simp only [List.mem_singleton] at hd0
      subst hd0
      exact ⟨rfl, rfl, rfl, rfl, rfl, rfl, rfl, rfl, rfl, rfl⟩)
    ⟨rfl, rfl, rfl, rfl, rfl⟩ (by decide)
  exact ⟨h.1, h.2.1.1, h.2.2.1, h.2.2.2 emptyDraws [] [] rfl⟩

/-- Claim C1 counterexample: at requested size 0 the composite sampler does
not return a 0-row batch — it fails with the `np.max`-on-empty `ValueError`
inside the rejection step. -/
theorem quota_exactness_counterexample :
    sample_all_routine1 phiQ2eZero 0 [] [emptyDraws] =
      Routine1Result.valueError := by decide

/-- Claim C7 (amended): in the final recursion level of
`sample_all_routine1`, the redshift array handed to the external
source-parameter sampler is that level's freshly drawn pre-rejection
candidate array `zs`, while the returned record's `zs` field is the trimmed
concatenation of that level's accepted rows with the accumulated input —
the two differ in general, so returned rows need not share their redshift
with their source-parameter draw. -/
theorem redshift_sharing_amended (phiQ2e : ℚ → ℚ → ℚ × ℚ) (size : ℕ)
    (input : Batch) (d : Routine1Draws) (rest : List Routine1Draws)
    (hne : d.thetaE ≠ [])
    (hge : ¬ (Batch.get (add_dictionaries_together (rjsAcceptedBatch d) input)
      "zl").length < size) :
    sample_all_routine1 phiQ2e size input (d :: rest) =
      .ok (routine1Record phiQ2e size input d (rjsAcceptedBatch d)) d.zsCand ∧
    Batch.get (routine1Record phiQ2e size input d (rjsAcceptedBatch d)) "zs" =
      (maskFilter (einsteinMask d.uRjs d.thetaE) d.zsCand ++
        Batch.get input "zs").take size :=
  ⟨routine1_final_step phiQ2e size input d rest hne hge,
   (routine1Record_get phiQ2e size input d).2.1⟩


theorem redshift_sharing_amended_witness :
    sample_all_routine1 phiQ2eZero 2 cInput1 [cDraws2] =
      .ok (routine1Record phiQ2eZero 2 cInput1 cDraws2
        (rjsAcceptedBatch cDraws2)) cDraws2.zsCand ∧
    Batch.get (routine1Record phiQ2eZero 2 cInput1 cDraws2
        (rjsAcceptedBatch cDraws2)) "zs" =
      (maskFilter (einsteinMask cDraws2.uRjs cDraws2.thetaE) cDraws2.zsCand ++
        Batch.get cInput1 "zs").take 2 :=
  redshift_sharing_amended phiQ2eZero 2 cInput1 cDraws2 [] (by decide)
    (by decide)

/-- Claim C7 counterexample: a concrete two-round run returns a record whose
`zs` field is `[40, 10]` while the redshift array passed to the source
sampler is `[30, 40]` — the merged source parameters were not drawn with the
record's accepted redshifts. -/
theorem redshift_sharing_counterexample :
    Routine1Result.zsPassed?
      (sample_all_routine1 phiQ2eZero 2 [] [cDraws1, cDraws2]) =
        some [30, 40] ∧
    Routine1Result.recordField? "zs"
      (sample_all_routine1 phiQ2eZero 2 [] [cDraws1, cDraws2]) =
        some [40, 10] ∧
    some [(30 : ℚ), 40] ≠ some [(40 : ℚ), 10] :=
  ⟨by decide, by decide, by decide⟩

theorem ceilDiv_cases (N b : ℕ) (hb : 1 ≤ b) :
    (N + b - 1) / b = if N % b = 0 then N / b else N / b + 1 := by
  have hmod := Nat.div_add_mod N b
  set q := N / b with hq
  set r := N % b with hr
  have hrlt : r < b := Nat.mod_lt _ (by omega)
  have hmul : b * (q + 1) = b * q + b := by ring
  by_cases h0 : r = 0
  · rw [if_pos h0]
    have hNe : N + b - 1 = (b - 1) + b * q := by omega
    rw [hNe, Nat.add_mul_div_left _ _ (by omega : 0 < b),
      Nat.div_eq_of_lt (by omega)]
    omega
  · rw [if_neg h0]
    have hNe : N + b - 1 = (r - 1) + b * (q + 1) := by omega
    rw [hNe, Nat.add_mul_div_left _ _ (by omega : 0 < b),
      Nat.div_eq_of_lt (by omega)]
    omega

theorem numBatchesMinus1_eq (N b : ℕ) (hN : 1 ≤ N) (hb : 1 ≤ b) :
    numBatchesMinus1 N b = (((N + b - 1) / b : ℕ) : ℤ) - 1 ∧
    1 ≤ (N + b - 1) / b ∧
    (numBatchesMinus1 N b).toNat = (N + b - 1) / b - 1 := by
  have hceil := ceilDiv_cases N b hb
  have hone : 1 ≤ (N + b - 1) / b := by
    rw [Nat.le_div_iff_mul_le (by omega : 0 < b)]
    omega
  have heq : numBatchesMinus1 N b = (((N + b - 1) / b : ℕ) : ℤ) - 1 := by
    rw [numBatchesMinus1, hceil]
    by_cases h0 : N % b = 0
    · rw [if_pos (by simpa using h0), if_pos h0, ← Int.natCast_div]
    · rw [if_neg (by simpa using h0), if_neg h0, ← Int.natCast_div]
      push_cast
      ring
  refine ⟨heq, hone, ?_⟩
  rw [heq]
  omega

theorem fracBatches_eq (N b : ℕ) (hN : 1 ≤ N) (hb : 1 ≤ b) :
    fracBatches N b = N - ((N + b - 1) / b - 1) * b ∧
    ((N + b - 1) / b - 1) * b < N := by
  have hmod := Nat.div_add_mod N b
  have hceil := ceilDiv_cases N b hb
  obtain ⟨h1, h2, h3⟩ := numBatchesMinus1_eq N b hN hb
  set q := N / b with hq
  set r := N % b with hr
  have hrlt : r < b := Nat.mod_lt _ (by omega)
  rw [fracBatches, h3]
  by_cases hlt : b < N
  · have hbound : ((N + b - 1) / b - 1) * b < N := by
      by_cases h0 : r = 0
      · rw [hceil, if_pos h0]
        have hq2 : 2 ≤ q := by
          by_contra hcon
          have hq1 : q ≤ 1 := by omega
          have hbq : b * q ≤ b * 1 := Nat.mul_le_mul_left b hq1
          omega
        have hqb : (q - 1) * b = b * q - b := by
          cases q with
          | zero => omega
          | succ n =>
              have hmm : b * (n + 1) = n * b + b := by ring
              simp only [Nat.succ_sub_one]
              omega
        omega
      · rw [hceil, if_neg h0]
        simp only [Nat.add_sub_cancel]
        have hqb2 : q * b = b * q := by ring
        omega
    exact ⟨by rw [if_pos hlt], hbound⟩
  · have hceil1 : (N + b - 1) / b - 1 = 0 := by
      rw [hceil]
      by_cases h0 : r = 0
      · rw [if_pos h0]
        have hq1 : q ≤ 1 := by
          by_contra hcon
          have : b * 2 ≤ b * q := Nat.mul_le_mul_left b (by omega)
          omega
        omega
      · rw [if_neg h0]
        have hq0 : q = 0 := by
          by_contra hcon
          have : b * 1 ≤ b * q :=
            Nat.mul_le_mul_left b (Nat.pos_of_ne_zero hcon)
          omega
        omega
    rw [hceil1]
    exact ⟨by rw [if_neg hlt]; omega, by omega⟩

theorem length_flatMap_enum (sizes : List ℕ) (f : ℕ → ℕ → List ℚ)
    (hf : ∀ i n, (f i n).length = n) :
    (sizes.enum.flatMap (fun p => f p.1 p.2)).length = sizes.sum := by
  rw [List.length_flatMap]
  have hmap : sizes.enum.map (List.length ∘ fun p => f p.1 p.2) =
      sizes.enum.map (fun p => p.2) :=
    List.map_congr_left (fun p _ => hf p.1 p.2)
  rw [hmap, List.enum_map_snd]

theorem length_flatMap_enum_le (sizes : List ℕ) (f : ℕ → ℕ → List ℚ)
    (hf : ∀ i n, (f i n).length ≤ n) :
    (sizes.enum.flatMap (fun p => f p.1 p.2)).length ≤ sizes.sum := by
  rw [List.length_flatMap]
  calc (sizes.enum.map (List.length ∘ fun p => f p.1 p.2)).sum
      ≤ (sizes.enum.map (fun p => p.2)).sum :=
        List.sum_le_sum (fun p _ => hf p.1 p.2)
    _ = sizes.sum := by rw [List.enum_map_snd]

/-- Claim C8 (amended): for every requested total `N ≥ 1` and round size
`b ≥ 1`, both statistics loops run `ceil(N/b)` rounds — one leading round of
size `N - (ceil(N/b) - 1)·b` followed by `ceil(N/b) - 1` full rounds of size
`b` — and the concatenated sample has exactly `N` rows for the unlensed loop
and for the lensed loop whenever the per-round enrichment preserves row
counts; an enrichment that drops rows (allowed by §6) gives at most `N`.
(At `N = 0` the code runs one round of size 0 instead of zero rounds, the
counterexample.) -/
theorem batch_accumulation_amended (N b : ℕ) (hN : 1 ≤ N) (hb : 1 ≤ b)
    (samp : ℕ → ℕ → List ℚ) (hsamp : ∀ i n, (samp i n).length = n)
    (imgSolve : ℕ → List ℚ → List ℚ)
    (hpres : ∀ i xs, (imgSolve i xs).length = xs.length) :
    (roundSizes N b).length = (N + b - 1) / b ∧
    (roundSizes N b).headD 0 = N - ((N + b - 1) / b - 1) * b ∧
    (roundSizes N b).tail = List.replicate ((N + b - 1) / b - 1) b ∧
    (unlensed_cbc_statistics samp N b).length = N ∧
    (lensed_cbc_statistics samp imgSolve N b).length = N ∧
    (∀ g : ℕ → List ℚ → List ℚ, (∀ i xs, (g i xs).length ≤ xs.length) →
      (lensed_cbc_statistics samp g N b).length ≤ N) := by
  obtain ⟨h1, h2, h3⟩ := numBatchesMinus1_eq N b hN hb
  obtain ⟨hf1, hf2⟩ := fracBatches_eq N b hN hb
  have hsum : (roundSizes N b).sum = N := by
    rw [roundSizes, List.sum_cons, List.sum_replicate, smul_eq_mul, h3, hf1]
    omega
  refine ⟨?_, ?_, ?_, ?_, ?_, ?_⟩
  · rw [roundSizes]
    simp [h3]
    omega
  · rw [roundSizes]
    simp [hf1]
  · rw [roundSizes]
    simp [h3]
  · rw [unlensed_cbc_statistics, length_flatMap_enum _ _ hsamp, hsum]
  · rw [lensed_cbc_statistics,
      length_flatMap_enum _ (fun i n => imgSolve i (samp i n))
        (fun i n => by rw [hpres, hsamp]), hsum]
  · intro g hg
    rw [lensed_cbc_statistics]
    calc ((roundSizes N b).enum.flatMap
          (fun p => g p.1 (samp p.1 p.2))).length
        ≤ (roundSizes N b).sum :=
          length_flatMap_enum_le _ (fun i n => g i (samp i n))
            (fun i n => by
              have hle := hg i (samp i n)
              rw [hsamp i n] at hle
              exact hle)
      _ = N := hsum



theorem batch_accumulation_amended_witness :
    (roundSizes 3 2).length = 2 ∧
    (roundSizes 3 2).headD 0 = 1 ∧
    (roundSizes 3 2).tail = List.replicate 1 2 ∧
    (unlensed_cbc_statistics sampC 3 2).length = 3 ∧
    (lensed_cbc_statistics sampC enrichId 3 2).length = 3 := by
  have h := batch_accumulation_amended 3 2 (by omega) (by omega) sampC
    (fun i n => List.length_replicate n 0) enrichId (fun i xs => rfl)
  exact ⟨h.1, h.2.1, h.2.2.1, h.2.2.2.1, h.2.2.2.2.1⟩

/-- Claim C8 counterexample: at requested total `N = 0` (round size 1) the
loop still performs one round (of size 0), not the `ceil(0/1) = 0` rounds the
claim's formula prescribes. -/
theorem batch_accumulation_counterexample :
    (roundSizes 0 1).length = 1 ∧ (0 + 1 - 1) / 1 = 0 ∧ (1 : ℕ) ≠ 0 :=
  ⟨by decide, by decide, by decide⟩

/-- Claim C10: a rate calculation on an already-sampled population leaves the
stored population unchanged: `unlensed_rate` (resp. `lensed_rate`) keeps
`self.gw_param` (resp. `self.lensed_param`) — and the other stored
populations — exactly as they were, and stores the filtered subset only in
`gw_param_detectable` (resp. `lensed_param_detectable`); in the source this
holds because `dict.copy()` plus numpy fancy indexing and `np.nan_to_num`
allocate new arrays and never mutate the stored ones. -/
theorem rate_calls_preserve_population (Phi : ℚ → ℚ) (c0 t : ℚ)
    (thr : List ℚ) (nimg : List ℕ) (s : LerState) (gp : Batch)
    (lp : LensedStore) (hgp : s.gw_param = some gp)
    (hlp : s.lensed_param = some lp)
    (hcols : consumedThresholds thr nimg ≠ []) :
    (unlensed_rate Phi c0 t s).map (fun r =>
      (r.1.gw_param, r.1.lensed_param, r.1.lensed_param_detectable,
       r.1.gw_param_detectable)) =
      some (s.gw_param, s.lensed_param, s.lensed_param_detectable,
        some (unlensedDetectable Phi t gp)) ∧
    (lensed_rate Phi c0 thr nimg s).map (fun r =>
      (r.1.lensed_param, r.1.gw_param, r.1.gw_param_detectable,
       r.1.lensed_param_detectable)) =
      some (s.lensed_param, s.gw_param, s.gw_param_detectable,
        some (lensedDetectable Phi thr nimg lp)) := by
  constructor
  · simp [unlensed_rate, hgp]
  · simp [lensed_rate, hlp, hcols]




theorem rate_calls_preserve_population_witness :
    (unlensed_rate PhiLin 2 8 sEx).map (fun r =>
      (r.1.gw_param, r.1.lensed_param, r.1.lensed_param_detectable,
       r.1.gw_param_detectable)) =
      some (sEx.gw_param, sEx.lensed_param, sEx.lensed_param_detectable,
        some (unlensedDetectable PhiLin 8 gpEx)) ∧
    (lensed_rate PhiLin 2 [8] [1] sEx).map (fun r =>
      (r.1.lensed_param, r.1.gw_param, r.1.gw_param_detectable,
       r.1.lensed_param_detectable)) =
      some (sEx.lensed_param, sEx.gw_param, sEx.gw_param_detectable,
        some (lensedDetectable PhiLin [8] [1] lpEx)) :=
  rate_calls_preserve_population PhiLin 2 8 [8] [1] sEx gpEx lpEx rfl rfl
    (by decide)

theorem rate_estimator_formula_witness :
    (lensed_rate PhiLin 2 [8] [1] sEx).map (fun r => r.2) =
      some (lensedRateStep 2 (lensedSnrHit [8] [1] lpEx.opt_snr_net)
          (Batch.get lpEx.fields1 "weights"),
        lensedRatePdet 2 (pdetCombined PhiLin [8] [1] lpEx.opt_snr_net)
          (Batch.get lpEx.fields1 "weights")) :=
  rate_estimator_formula.2.2.2.2.1 PhiLin 2 [8] [1] sEx lpEx rfl (by decide)

end LeR
